import Mathlib

/-!
Verification of the process scheduler in `src/os/kernel/src/process/scheduler.rs`.

The scheduler keeps a rotating ready set (a `VecDeque<Process>` in the source,
a `List` here with pop-front / push-back / push-front), an optional `current`
process id, and an optional high-water-mark `last_id`.  Machine integers
(`u64` ids) are modelled as `Nat` with an explicit `2 ^ 64` bound where the
source uses `checked_add`.  The potentially non-terminating scan loop inside
`switch` is modelled with explicit fuel; running out of fuel is a distinct
outcome (`SwitchOutcome.fuelOut`), never confused with the source's `None`
return.  Calls to the low-power wait instruction `aarch64::wfi()` are counted.
-/

namespace KernelSched

/-- Modelled from the spec: the `TrapFrame` type lives in the `traps` module,
which is not part of this excerpt.  The spec describes the execution snapshot
as a fixed-size value holding registers, program counter (`elr`), stack
pointer (`sp`), processor flags (`spsr`) and an identifier field (`tpidr`)
mirroring the owning process's id; those are exactly the fields the scheduler
source touches, and the remaining general registers are kept abstractly as a
list. -/
structure TrapFrame where
  elr : Nat
  sp : Nat
  spsr : Nat
  tpidr : Nat
  regs : List Nat
  deriving DecidableEq, Repr

/-- Modelled from the spec: the `State` enum lives in the `process` module,
not in this excerpt.  The spec gives the lifecycle states as Ready, Running
and Blocked. -/
inductive State where
  | Ready
  | Running
  | Blocked
  deriving DecidableEq, Repr

/-- Modelled from the spec: the `Process` struct lives in the `process`
module, not in this excerpt.  It owns one snapshot (`trap_frame`), one stack
region (kept abstract as a tag) and a lifecycle state. -/
structure Process where
  trap_frame : TrapFrame
  state : State
  stack : Nat
  deriving DecidableEq, Repr

/-- Modelled from the spec: `Process::get_id` reads the identifier field
mirrored inside the snapshot. -/
def Process.getId (p : Process) : Nat :=
  p.trap_frame.tpidr

/-- Modelled from the spec: `Process::is_ready` holds exactly when the
lifecycle state is Ready ("the scan's eligibility check is assumed to mean
state == Ready"). -/
def Process.isReady (p : Process) : Bool :=
  p.state = State.Ready

/-- The bound of the `u64` id space: ids are values `< u64Bound`. -/
def u64Bound : Nat := 2 ^ 64

/-- `u64` `checked_add` by one: fails instead of wrapping. -/
def checkedAdd1 (n : Nat) : Option Nat :=
  if n + 1 < u64Bound then some (n + 1) else none

/-- The scheduler core state: `processes` is the ready set (head = front of
the `VecDeque`), `current` the id of the running process, `last_id` the
high-water mark of the id allocator. -/
structure Scheduler where
  processes : List Process
  current : Option Nat
  last_id : Option Nat
  deriving DecidableEq, Repr

/-- `Scheduler::new()`: empty queue, no current process, no allocated id. -/
def Scheduler.new : Scheduler :=
  { processes := [], current := none, last_id := none }

/-- `Scheduler::add`: allocate the next id (`last_id + 1`, or `0` when unset;
fails without mutating anything when the increment would overflow `u64`),
stamp it into the process's `trap_frame.tpidr`, push the process to the back
of the queue, set `current` when it was unset, and record the id in
`last_id`.  Returns the allocated id alongside the updated state. -/
def Scheduler.add (s : Scheduler) (p : Process) : Option Nat × Scheduler :=
  match (match s.last_id with
         | some lastId => checkedAdd1 lastId
         | none => some 0) with
  | none => (none, s)
  | some id =>
    let p2 : Process := { p with trap_frame := { p.trap_frame with tpidr := id } }
    let cur : Option Nat := match s.current with
      | none => some id
      | some c => some c
    (some id,
      { processes := s.processes ++ [p2], current := cur, last_id := some id })

/-- Outcome of the scan loop inside `Scheduler::switch`.  `found` carries the
queue after re-inserting the selected process at the head, the selected id,
the trap frame copied out, and the number of `wfi` calls made; `emptyQ` is a
failed `pop_front()?` inside the loop; `fuelOut` (with its `wfi` count) marks
that the loop did not finish within the given fuel. -/
inductive ScanResult where
  | found (q : List Process) (id : Nat) (tfOut : TrapFrame) (wfi : Nat)
  | emptyQ (wfi : Nat)
  | fuelOut (wfi : Nat)
  deriving DecidableEq, Repr

/-- The scan loop of `Scheduler::switch` (source lines 143-159): pop the
front process; if it is ready, record it (state becomes Running, it returns
to the head); otherwise, if its id equals the id popped in step 1, invoke
`wfi`; in both non-ready cases push it to the back and continue. -/
def scan (fuel : Nat) (curId : Nat) (q : List Process) (wfi : Nat) : ScanResult :=
  match fuel, q with
  | 0, _ => ScanResult.fuelOut wfi
  | _ + 1, [] => ScanResult.emptyQ wfi
  | fuel + 1, p :: rest =>
    if p.isReady then
      ScanResult.found ({ p with state := State.Running } :: rest)
        p.getId p.trap_frame wfi
    else if p.getId = curId then
      scan fuel curId (rest ++ [p]) (wfi + 1)
    else
      scan fuel curId (rest ++ [p]) wfi

/-- Outcome of `Scheduler.switch`: `ret` is a genuine return of the source
function (optional id, post state, trap-frame buffer contents, `wfi` count);
`fuelOut` means the scan loop exceeded the modelling fuel. -/
inductive SwitchOutcome where
  | ret (id : Option Nat) (s : Scheduler) (tf : TrapFrame) (wfi : Nat)
  | fuelOut (wfi : Nat)
  deriving DecidableEq, Repr

/-- `Scheduler::switch` (source lines 136-162): pop the head (fail with no
id, leaving everything untouched, when the queue is empty); remember its id;
overwrite its stored snapshot with the caller's buffer `tf` and its state
with `newState`; push it to the back; then run the scan loop.  On success
`current` becomes the selected id and the buffer receives the selected
process's stored snapshot. -/
def Scheduler.switch (s : Scheduler) (fuel : Nat) (newState : State)
    (tf : TrapFrame) : SwitchOutcome :=
  match s.processes with
  | [] => SwitchOutcome.ret none s tf 0
  | c :: rest =>
    let curId := c.getId
    let out : Process := { c with trap_frame := tf, state := newState }
    match scan fuel curId (rest ++ [out]) 0 with
    | ScanResult.found q i tfOut w =>
        SwitchOutcome.ret (some i)
          { s with processes := q, current := some i } tfOut w
    | ScanResult.emptyQ w =>
        SwitchOutcome.ret none { s with processes := [] } tf w
    | ScanResult.fuelOut w => SwitchOutcome.fuelOut w

/-- Number of elements of `l` whose id equals `curId`: the `wfi` calls a
full pass of the scan over `l` would make. -/
def wfiCount (curId : Nat) (l : List Process) : Nat :=
  l.countP (fun x => decide (x.getId = curId))

/-- Number of processes in `l` whose lifecycle state is Running. -/
def runningCount (l : List Process) : Nat :=
  l.countP (fun p => decide (p.state = State.Running))

/-- Run a sequence of `add` calls, collecting the returned ids. -/
def addAll (s : Scheduler) (ps : List Process) : List (Option Nat) × Scheduler :=
  match ps with
  | [] => ([], s)
  | p :: rest =>
    let rs := s.add p
    let rest2 := addAll rs.2 rest
    (rs.1 :: rest2.1, rest2.2)

/-- The trap-frame buffer contents left behind by a `switch` outcome. -/
def tfOfOutcome (o : SwitchOutcome) : TrapFrame :=
  match o with
  | SwitchOutcome.ret _ _ t _ => t
  | SwitchOutcome.fuelOut _ => { elr := 0, sp := 0, spsr := 0, tpidr := 0, regs := [] }

/-- Scheduler-core states reachable through the exposed operations. -/
inductive Reachable : Scheduler → Prop where
  | init : Reachable Scheduler.new
  | addStep (s : Scheduler) (p : Process) (r : Option Nat) (s2 : Scheduler) :
      Reachable s → s.add p = (r, s2) → Reachable s2
  | switchStep (s : Scheduler) (fuel : Nat) (ns : State) (tf : TrapFrame)
      (r : Option Nat) (s2 : Scheduler) (tf2 : TrapFrame) (w : Nat) :
      Reachable s → s.switch fuel ns tf = SwitchOutcome.ret r s2 tf2 w →
      Reachable s2

/-- Reachability restricted to calls that never inject the Running state
from outside: added processes are not Running and `switch` is never handed
`Running` as the outgoing state. -/
inductive ReachableNR : Scheduler → Prop where
  | init : ReachableNR Scheduler.new
  | addStep (s : Scheduler) (p : Process) (r : Option Nat) (s2 : Scheduler) :
      ReachableNR s → p.state ≠ State.Running → s.add p = (r, s2) →
      ReachableNR s2
  | switchStep (s : Scheduler) (fuel : Nat) (ns : State) (tf : TrapFrame)
      (r : Option Nat) (s2 : Scheduler) (tf2 : TrapFrame) (w : Nat) :
      ReachableNR s → ns ≠ State.Running →
      s.switch fuel ns tf = SwitchOutcome.ret r s2 tf2 w → ReachableNR s2

/-- Initial snapshot of the demo process P0 (identifier field deliberately
junk before `add` stamps it). -/
def tfA : TrapFrame := { elr := 10, sp := 11, spsr := 12, tpidr := 77, regs := [1, 2] }

/-- Initial snapshot of the demo process P1. -/
def tfB : TrapFrame := { elr := 20, sp := 21, spsr := 22, tpidr := 88, regs := [3, 4] }

/-- The caller's snapshot buffer at the demo `switch` call: the interrupted
process P0's machine state, carrying P0's id. -/
def bufDemo : TrapFrame := { elr := 30, sp := 31, spsr := 32, tpidr := 0, regs := [5, 6] }

/-- Demo process P0, handed to `add` while marked Running. -/
def P0demo : Process := { trap_frame := tfA, state := State.Running, stack := 100 }

/-- Demo process P1, handed to `add` while Ready. -/
def P1demo : Process := { trap_frame := tfB, state := State.Ready, stack := 200 }

/-- A Ready process sharing P0's snapshot, for the restricted runs. -/
def PAdemo : Process := { trap_frame := tfA, state := State.Ready, stack := 100 }

/-- P0's snapshot after `add` stamped id 0 into it. -/
def tfP0s : TrapFrame := { elr := 10, sp := 11, spsr := 12, tpidr := 0, regs := [1, 2] }

/-- P1's snapshot after `add` stamped id 1 into it. -/
def tfP1s : TrapFrame := { elr := 20, sp := 21, spsr := 22, tpidr := 1, regs := [3, 4] }

/-- P0 as it sits in the ready set after `add`. -/
def P0s : Process := { trap_frame := tfP0s, state := State.Running, stack := 100 }

/-- P1 as it sits in the ready set after `add`. -/
def P1s : Process := { trap_frame := tfP1s, state := State.Ready, stack := 200 }

/-- The scheduler after `add(P0demo)`. -/
def sDemo1 : Scheduler := (Scheduler.new.add P0demo).2

/-- The scheduler after `add(P0demo)` then `add(P1demo)`: ready set
`[P0 Running, P1 Ready]`, `current = 0`, `last_id = 1`. -/
def sDemo2 : Scheduler := (sDemo1.add P1demo).2

/-- A scheduler holding one single Ready process (id 0). -/
def sC2 : Scheduler := (Scheduler.new.add PAdemo).2

/-- A scheduler with both processes Ready, built by two `add` calls. -/
def sC6 : Scheduler := (sC2.add P1demo).2

/-- The state `switch(Running, bufDemo)` leaves behind from `sC6`: two
processes marked Running at once. -/
def sC6after : Scheduler :=
  { processes := [{ trap_frame := tfP1s, state := State.Running, stack := 200 },
                  { trap_frame := bufDemo, state := State.Running, stack := 100 }],
    current := some 1, last_id := some 1 }

/-- A scheduler whose id allocator sits at the top of the `u64` range. -/
def sBig : Scheduler :=
  { processes := [], current := none, last_id := some (u64Bound - 1) }

/-- The state after the first demo `switch(Ready, bufDemo)` from `sDemo2`:
P1 Running at the head, P0's container now holds `bufDemo`. -/
def s1C5 : Scheduler :=
  { processes := [{ trap_frame := tfP1s, state := State.Running, stack := 200 },
                  { trap_frame := bufDemo, state := State.Ready, stack := 100 }],
    current := some 1, last_id := some 1 }

/-- The caller's buffer at the second demo `switch`: P1's state, id 1. -/
def tf2C5 : TrapFrame := { elr := 40, sp := 41, spsr := 42, tpidr := 1, regs := [7] }

/-- The state after the second demo `switch(Ready, tf2C5)` from `s1C5`. -/
def s2C5 : Scheduler :=
  { processes := [{ trap_frame := bufDemo, state := State.Running, stack := 100 },
                  { trap_frame := tf2C5, state := State.Ready, stack := 200 }],
    current := some 0, last_id := some 1 }

theorem wfiCount_nil (curId : Nat) : wfiCount curId [] = 0 := rfl

theorem wfiCount_cons (curId : Nat) (x : Process) (l : List Process) :
    wfiCount curId (x :: l) =
      wfiCount curId l + (if x.getId = curId then 1 else 0) := by
  simp [wfiCount, List.countP_cons]

theorem wfiCount_eq_zero (curId : Nat) (l : List Process)
    (h : ∀ x ∈ l, x.getId ≠ curId) : wfiCount curId l = 0 := by
  induction l with
  | nil => rfl
  | cons x t ih =>
    rw [wfiCount_cons, if_neg (h x (by simp)), ih (fun y hy => h y (by simp [hy]))]

/-- Forward characterization of the scan loop: on a queue shaped as a
non-ready prefix `pre`, a first ready process `p` and a remainder `post`,
the scan (given enough fuel) selects `p`, marks it Running and puts it at
the head, rotates `pre` behind `post`, copies out `p`'s stored snapshot,
and performs one `wfi` per element of `pre` carrying the outgoing id. -/
theorem scan_ready_spec (pre : List Process) :
    ∀ (p : Process) (post : List Process) (curId w fuel : Nat),
      (∀ x ∈ pre, x.isReady = false) → p.isReady = true → pre.length < fuel →
      scan fuel curId (pre ++ p :: post) w =
        ScanResult.found ({ p with state := State.Running } :: (post ++ pre))
          p.getId p.trap_frame (w + wfiCount curId pre) := by
  induction pre with
  | nil =>
    intro p post curId w fuel _ hp hfuel
    match fuel, hfuel with
    | f + 1, _ =>
      simp [scan, hp, wfiCount_nil]
  | cons x pre1 ih =>
    intro p post curId w fuel hpre hp hfuel
    match fuel, hfuel with
    | f + 1, hfuel =>
      have hx : x.isReady = false := hpre x (by simp)
      have hpre1 : ∀ y ∈ pre1, y.isReady = false := by
        intro y hy; exact hpre y (by simp [hy])
      have hlen : pre1.length < f := by
        simpa using Nat.lt_of_succ_lt_succ hfuel
      have hassoc : (pre1 ++ p :: post) ++ [x] = pre1 ++ p :: (post ++ [x]) := by
        simp
      have hrot : (post ++ [x]) ++ pre1 = post ++ x :: pre1 := by
        simp
      by_cases hid : x.getId = curId
      · rw [show ((x :: pre1) ++ p :: post) = x :: (pre1 ++ p :: post) by simp,
            scan, if_neg (by simp [hx]), if_pos hid, hassoc,
            ih p (post ++ [x]) curId (w + 1) f hpre1 hp hlen, hrot,
            wfiCount_cons, if_pos hid]
        congr 1
        omega
      · rw [show ((x :: pre1) ++ p :: post) = x :: (pre1 ++ p :: post) by simp,
            scan, if_neg (by simp [hx]), if_neg hid, hassoc,
            ih p (post ++ [x]) curId w f hpre1 hp hlen, hrot,
            wfiCount_cons, if_neg hid]
        congr 1

/-- Converse selection lemma: whenever the scan reports `found`, the
selected process was a ready member of the queue, its id and stored
snapshot are what is reported, it sits (marked Running) at the head of the
resulting queue, and every other element of the resulting queue is an
unmodified element of the input queue. -/
theorem scan_found_sel (fuel : Nat) :
    ∀ (curId : Nat) (q : List Process) (w : Nat) (q2 : List Process)
      (i : Nat) (tfo : TrapFrame) (w2 : Nat),
      scan fuel curId q w = ScanResult.found q2 i tfo w2 →
      ∃ p t, p ∈ q ∧ p.isReady = true ∧ i = p.getId ∧ tfo = p.trap_frame ∧
        q2 = { p with state := State.Running } :: t ∧ ∀ x ∈ t, x ∈ q := by
  induction fuel with
  | zero => intro curId q w q2 i tfo w2 h; simp [scan] at h
  | succ f ih =>
    intro curId q w q2 i tfo w2 h
    match q with
    | [] => simp [scan] at h
    | x :: rest =>
      by_cases hx : x.isReady
      · rw [scan, if_pos hx] at h
        injection h with h1 h2 h3 h4
        subst h1; subst h2; subst h3
        exact ⟨x, rest, by simp, hx, rfl, rfl, rfl, fun y hy => by simp [hy]⟩
      · have hmem : ∀ y, y ∈ rest ++ [x] → y ∈ x :: rest := by
          intro y hy
          rcases List.mem_append.mp hy with hy | hy
          · exact List.mem_cons_of_mem _ hy
          · simp at hy; simp [hy]
        by_cases hid : x.getId = curId
        · rw [scan, if_neg hx, if_pos hid] at h
          obtain ⟨p, t, hp, hr, hi, htf, hq2, ht⟩ :=
            ih curId (rest ++ [x]) (w + 1) q2 i tfo w2 h
          exact ⟨p, t, hmem p hp, hr, hi, htf, hq2,
            fun y hy => hmem y (ht y hy)⟩
        · rw [scan, if_neg hx, if_neg hid] at h
          obtain ⟨p, t, hp, hr, hi, htf, hq2, ht⟩ :=
            ih curId (rest ++ [x]) w q2 i tfo w2 h
          exact ⟨p, t, hmem p hp, hr, hi, htf, hq2,
            fun y hy => hmem y (ht y hy)⟩

/-- The scan never changes the length of the queue. -/
theorem scan_found_length (fuel : Nat) :
    ∀ (curId : Nat) (q : List Process) (w : Nat) (q2 : List Process)
      (i : Nat) (tfo : TrapFrame) (w2 : Nat),
      scan fuel curId q w = ScanResult.found q2 i tfo w2 →
      q2.length = q.length := by
  induction fuel with
  | zero => intro curId q w q2 i tfo w2 h; simp [scan] at h
  | succ f ih =>
    intro curId q w q2 i tfo w2 h
    match q with
    | [] => simp [scan] at h
    | x :: rest =>
      by_cases hx : x.isReady
      · rw [scan, if_pos hx] at h
        injection h with h1 _ _ _
        subst h1
        simp
      · by_cases hid : x.getId = curId
        · rw [scan, if_neg hx, if_pos hid] at h
          have := ih curId (rest ++ [x]) (w + 1) q2 i tfo w2 h
          simpa using this
        · rw [scan, if_neg hx, if_neg hid] at h
          have := ih curId (rest ++ [x]) w q2 i tfo w2 h
          simpa using this

/-- Starting from a non-empty queue, the scan never hits the (dead)
`pop_front()? == None` path inside the loop. -/
theorem scan_ne_emptyQ (fuel : Nat) :
    ∀ (curId : Nat) (q : List Process) (w w2 : Nat), q ≠ [] →
      scan fuel curId q w ≠ ScanResult.emptyQ w2 := by
  induction fuel with
  | zero => intro curId q w w2 _ h; simp [scan] at h
  | succ f ih =>
    intro curId q w w2 hq h
    match q with
    | [] => exact hq rfl
    | x :: rest =>
      by_cases hx : x.isReady
      · rw [scan, if_pos hx] at h
        exact ScanResult.noConfusion h
      · by_cases hid : x.getId = curId
        · rw [scan, if_neg hx, if_pos hid] at h
          exact ih curId (rest ++ [x]) (w + 1) w2 (by simp) h
        · rw [scan, if_neg hx, if_neg hid] at h
          exact ih curId (rest ++ [x]) w w2 (by simp) h

/-- Every non-empty list of processes with at least one ready member splits
at its first ready member. -/
theorem exists_first_ready (q : List Process) :
    (∃ p ∈ q, p.isReady = true) →
    ∃ pre p post, q = pre ++ p :: post ∧
      (∀ x ∈ pre, x.isReady = false) ∧ p.isReady = true := by
  induction q with
  | nil => intro h; simp at h
  | cons x t ih =>
    intro h
    by_cases hx : x.isReady
    · exact ⟨[], x, t, rfl, by simp, hx⟩
    · have ht : ∃ p ∈ t, p.isReady = true := by
        rcases h with ⟨p, hp, hr⟩
        rcases List.mem_cons.mp hp with rfl | hp
        · exact absurd hr hx
        · exact ⟨p, hp, hr⟩
      obtain ⟨pre, p, post, heq, hpre, hp⟩ := ih ht
      refine ⟨x :: pre, p, post, by simp [heq], ?_, hp⟩
      intro y hy
      rcases List.mem_cons.mp hy with rfl | hy
      · simpa using hx
      · exact hpre y hy

/-- Inversion of a returning `switch` call: either the queue was empty and
nothing was mutated, or the head was rotated to the back (snapshot and state
overwritten) and the scan selected a process. -/
theorem switch_ret_inv (s : Scheduler) (fuel : Nat) (ns : State)
    (tf : TrapFrame) (r : Option Nat) (s2 : Scheduler) (tf2 : TrapFrame)
    (w : Nat) (h : s.switch fuel ns tf = SwitchOutcome.ret r s2 tf2 w) :
    (s.processes = [] ∧ r = none ∧ s2 = s ∧ tf2 = tf ∧ w = 0) ∨
    (∃ c rest i q, s.processes = c :: rest ∧ r = some i ∧
      scan fuel c.getId (rest ++ [{ c with trap_frame := tf, state := ns }]) 0 =
        ScanResult.found q i tf2 w ∧
      s2 = { processes := q, current := some i, last_id := s.last_id }) := by
  rcases hps : s.processes with _ | ⟨c, rest⟩
  · simp only [Scheduler.switch, hps] at h
    injection h with h1 h2 h3 h4
    exact Or.inl ⟨rfl, h1.symm, h2.symm, h3.symm, h4.symm⟩
  · simp only [Scheduler.switch, hps] at h
    split at h
    next q i tfo w2 hsc =>
      injection h with h1 h2 h3 h4
      refine Or.inr ⟨c, rest, i, q, rfl, h1.symm, ?_, ?_⟩
      · rw [← h3, ← h4]; exact hsc
      · rw [← h2]
    next w2 hsc =>
      exact absurd hsc (scan_ne_emptyQ fuel c.getId _ 0 w2 (by simp))
    next w2 hsc =>
      exact SwitchOutcome.noConfusion h

/-- Inversion of an `add` call: either allocation overflowed and nothing was
mutated, or the freshly allocated id (`last_id + 1`, or `0`) was stamped into
the process's snapshot and the process appended at the back. -/
theorem add_inv (s : Scheduler) (p : Process) (r : Option Nat)
    (s2 : Scheduler) (h : s.add p = (r, s2)) :
    (r = none ∧ s2 = s) ∨
    (∃ i, r = some i ∧
      i = (match s.last_id with | none => 0 | some k => k + 1) ∧
      s2 = { processes := s.processes ++
               [{ p with trap_frame := { p.trap_frame with tpidr := i } }],
             current := (match s.current with | none => some i | some c => some c),
             last_id := some i }) := by
  rcases hl : s.last_id with _ | k
  · simp only [Scheduler.add, hl] at h
    injection h with h1 h2
    exact Or.inr ⟨0, h1.symm, rfl, by rw [← h2]⟩
  · by_cases hk : k + 1 < u64Bound
    · simp only [Scheduler.add, hl, checkedAdd1, if_pos hk] at h
      injection h with h1 h2
      exact Or.inr ⟨k + 1, h1.symm, rfl, by rw [← h2]⟩
    · simp only [Scheduler.add, hl, checkedAdd1, if_neg hk] at h
      injection h with h1 h2
      exact Or.inl ⟨h1.symm, h2.symm⟩

/-- Mapping `some (k + 1 + ·)` over `range (n + 1)`, unfolded at the front. -/
theorem range_map_some_add (k n : Nat) :
    (List.range (n + 1)).map (fun j => some (k + 1 + j)) =
      some (k + 1) :: (List.range n).map (fun j => some (k + 1 + 1 + j)) := by
  rw [List.range_succ_eq_map, List.map_cons, List.map_map]
  refine congrArg₂ _ (by rw [Nat.add_zero]) (List.map_congr_left ?_)
  intro j _
  show some (k + 1 + (j + 1)) = some (k + 1 + 1 + j)
  rw [show k + 1 + (j + 1) = k + 1 + 1 + j from by omega]

/-- Mapping `k + 1 + ·` over `range (n + 1)`, unfolded at the front. -/
theorem range_map_nat_add (k n : Nat) :
    (List.range (n + 1)).map (fun j => k + 1 + j) =
      (k + 1) :: (List.range n).map (fun j => k + 1 + 1 + j) := by
  rw [List.range_succ_eq_map, List.map_cons, List.map_map]
  refine congrArg₂ _ (by rw [Nat.add_zero]) (List.map_congr_left ?_)
  intro j _
  show k + 1 + (j + 1) = k + 1 + 1 + j
  omega

/-- Sequential id allocation, general form: starting from `last_id = some k`
with enough head-room, a run of `add` calls returns `k+1, k+2, …` and appends
processes stamped with those ids in order. -/
theorem addAll_ids_from (ps : List Process) :
    ∀ (s : Scheduler) (k : Nat), s.last_id = some k →
      k + ps.length < u64Bound →
      (addAll s ps).1 = (List.range ps.length).map (fun j => some (k + 1 + j)) ∧
      (addAll s ps).2.processes.map Process.getId =
        s.processes.map Process.getId ++
          (List.range ps.length).map (fun j => k + 1 + j) := by
  induction ps with
  | nil => intro s k _ _; simp [addAll]
  | cons p rest ih =>
    intro s k hk hbound
    have hlt : k + 1 < u64Bound := by
      simp only [List.length_cons] at hbound; omega
    have hadd : s.add p =
        (some (k + 1),
         { processes := s.processes ++
             [{ p with trap_frame := { p.trap_frame with tpidr := k + 1 } }],
           current := (match s.current with | none => some (k + 1) | some c => some c),
           last_id := some (k + 1) }) := by
      simp only [Scheduler.add, hk, checkedAdd1, if_pos hlt]
    have hadd1 : (s.add p).1 = some (k + 1) := by rw [hadd]
    have hadd2 : (s.add p).2.processes = s.processes ++
        [{ p with trap_frame := { p.trap_frame with tpidr := k + 1 } }] := by
      rw [hadd]
    have hlast : (s.add p).2.last_id = some (k + 1) := by rw [hadd]
    have hbound2 : (k + 1) + rest.length < u64Bound := by
      simp only [List.length_cons] at hbound; omega
    obtain ⟨h1, h2⟩ := ih (s.add p).2 (k + 1) hlast hbound2
    constructor
    · show (s.add p).1 :: (addAll (s.add p).2 rest).1 = _
      rw [h1, hadd1, List.length_cons, range_map_some_add]
    · show (addAll (s.add p).2 rest).2.processes.map Process.getId = _
      rw [h2, hadd2, List.length_cons, range_map_nat_add, List.map_append,
        List.append_assoc]
      simp only [List.map_cons, List.map_nil, List.cons_append, List.nil_append,
        Process.getId]

/-- In every state reachable without injecting Running from outside, no
process behind the head of the ready set is marked Running. -/
theorem reachNR_tail (s : Scheduler) (h : ReachableNR s) :
    ∀ p ∈ s.processes.tail, p.state ≠ State.Running := by
  induction h with
  | init => intro p hp _; simp [Scheduler.new] at hp
  | addStep s p r s2 hs hp hadd ih =>
    rcases add_inv s p r s2 hadd with ⟨_, rfl⟩ | ⟨i, _, _, rfl⟩
    · exact ih
    · intro x hx
      match hps : s.processes with
      | [] => rw [hps] at hx; simp at hx
      | c :: t =>
        rw [hps] at hx
        simp only [List.cons_append, List.tail_cons] at hx
        rcases List.mem_append.mp hx with hx | hx
        · exact ih x (by rw [hps]; exact hx)
        · simp at hx; simp [hx, hp]
  | switchStep s fuel ns tf r s2 tf2 w hs hns hsw ih =>
    rcases switch_ret_inv s fuel ns tf r s2 tf2 w hsw with
      ⟨_, _, rfl, _, _⟩ | ⟨c, rest, i, q, hps, _, hscan, rfl⟩
    · exact ih
    · obtain ⟨p1, t1, hp1, _, _, _, hq, ht1⟩ :=
        scan_found_sel fuel c.getId _ 0 q i tf2 w hscan
      intro x hx
      simp only at hx
      rw [hq] at hx
      simp only [List.tail_cons] at hx
      rcases List.mem_append.mp (ht1 x hx) with hxr | hxo
      · exact ih x (by rw [hps]; exact hxr)
      · simp at hxo; simp [hxo, hns]

/-- Mapping `some` over `range (n + 1)`, with the tail matching the form
produced by `addAll_ids_from` at `k = 0`. -/
theorem range_map_some (n : Nat) :
    (List.range (n + 1)).map some =
      some 0 :: (List.range n).map (fun j => some (0 + 1 + j)) := by
  rw [List.range_succ_eq_map, List.map_cons, List.map_map]
  refine congrArg₂ _ rfl (List.map_congr_left ?_)
  intro j _
  show some (j + 1) = some (0 + 1 + j)
  rw [show j + 1 = 0 + 1 + j from by omega]

/-- `range (n + 1)`, with the tail matching `addAll_ids_from` at `k = 0`. -/
theorem range_id_eq (n : Nat) :
    List.range (n + 1) = 0 :: (List.range n).map (fun j => 0 + 1 + j) := by
  rw [List.range_succ_eq_map]
  refine congrArg₂ _ rfl (List.map_congr_left ?_)
  intro j _
  show j + 1 = 0 + 1 + j
  omega

/-- Full behaviour of a successful `switch` call: with the ready set headed
by `c`, the head is dequeued, the caller's buffer and the target state are
stored into it, it is appended at the tail, and the scan selects the first
Ready process `p` of the rotated queue: `current` becomes `p`'s id, `p`'s
stored snapshot is copied out, `p` is marked Running and re-inserted at the
head, and `p`'s id is returned. -/
theorem switch_ready_spec (fuel : Nat) (s : Scheduler) (ns : State)
    (tf : TrapFrame) (c p : Process) (rest pre post : List Process)
    (hps : s.processes = c :: rest)
    (hdec : rest ++ [{ c with trap_frame := tf, state := ns }] = pre ++ p :: post)
    (hpre : ∀ x ∈ pre, x.isReady = false) (hp : p.isReady = true)
    (hfuel : pre.length < fuel) :
    s.switch fuel ns tf =
      SwitchOutcome.ret (some p.getId)
        { processes := { p with state := State.Running } :: (post ++ pre),
          current := some p.getId, last_id := s.last_id }
        p.trap_frame (wfiCount c.getId pre) := by
  have hq := scan_ready_spec pre p post c.getId 0 fuel hpre hp hfuel
  rw [Nat.zero_add] at hq
  simp only [Scheduler.switch, hps]
  rw [hdec, hq]

/-- Claim C1: on a successful `switch(new_state, tf)` the outgoing head is
dequeued, `tf` is stored into its snapshot, its state becomes `new_state`
and it is appended at the tail; the first Ready process of the scan has its
id recorded as `current`, its stored snapshot copied into the buffer, its
state set to Running and is re-inserted at the head; `switch` returns that
id.  In particular the spec's two-process scenario holds exactly. -/
theorem claim1_switch_round_robin :
    (∀ (fuel : Nat) (s : Scheduler) (ns : State) (tf : TrapFrame)
       (c p : Process) (rest pre post : List Process),
       s.processes = c :: rest →
       rest ++ [{ c with trap_frame := tf, state := ns }] = pre ++ p :: post →
       (∀ x ∈ pre, x.isReady = false) → p.isReady = true →
       pre.length < fuel →
       s.switch fuel ns tf =
         SwitchOutcome.ret (some p.getId)
           { processes := { p with state := State.Running } :: (post ++ pre),
             current := some p.getId, last_id := s.last_id }
           p.trap_frame (wfiCount c.getId pre))
    ∧ (Scheduler.new.add P0demo).1 = some 0
    ∧ (Scheduler.new.add P0demo).2.current = some 0
    ∧ (sDemo1.add P1demo).1 = some 1
    ∧ sDemo2.processes = [P0s, P1s]
    ∧ sDemo2.switch 5 State.Ready bufDemo =
        SwitchOutcome.ret (some 1)
          { processes := [{ trap_frame := tfP1s, state := State.Running, stack := 200 },
                          { trap_frame := bufDemo, state := State.Ready, stack := 100 }],
            current := some 1, last_id := some 1 }
          tfP1s 0 := by
  refine ⟨?_, by decide, by decide, by decide, by decide, by decide⟩
  intro fuel s ns tf c p rest pre post hps hdec hpre hp hfuel
  exact switch_ready_spec fuel s ns tf c p rest pre post hps hdec hpre hp hfuel

/-- Witness for C1: the general clause instantiated at the demo scenario
(`pre = []`, first Ready process `P1s`). -/
theorem claim1_witness :
    sDemo2.switch 5 State.Ready bufDemo =
      SwitchOutcome.ret (some P1s.getId)
        { processes := { P1s with state := State.Running } ::
            ([{ P0s with trap_frame := bufDemo, state := State.Ready }] ++ []),
          current := some P1s.getId, last_id := sDemo2.last_id }
        P1s.trap_frame (wfiCount P0s.getId []) :=
  claim1_switch_round_robin.1 5 sDemo2 State.Ready bufDemo P0s P1s [P1s] []
    [{ P0s with trap_frame := bufDemo, state := State.Ready }]
    (by decide) (by decide) (by decide) (by decide) (by decide)

/-- Claim C2 counterexample: the ready set `[P]` contains a process whose
state is Ready at the moment `switch` is called, yet `switch(Blocked, buf)`
overwrites that state in step 2, performs more than (length + 1) scan
iterations without returning (it would loop forever), and invokes the
low-power wait twice in those iterations. -/
theorem claim2_counterexample :
    (∃ pr ∈ sC2.processes, pr.isReady = true) ∧
    sC2.processes.length = 1 ∧
    sC2.switch (sC2.processes.length + 1) State.Blocked bufDemo =
      SwitchOutcome.fuelOut 2 := by
  decide

/-- Claim C2, amended: if a process OTHER than the head is Ready at call
time (or the head is re-queued as Ready because `new_state` is Ready), and
no non-head process carries the head's id (automatic when ids are unique),
then `switch` returns some id within (length + 1) scan iterations and the
low-power wait is never invoked. -/
theorem claim2_liveness_amended :
    ∀ (s : Scheduler) (ns : State) (tf : TrapFrame) (c : Process)
      (rest : List Process),
      s.processes = c :: rest →
      ((∃ p ∈ rest, p.isReady = true) ∨ ns = State.Ready) →
      (∀ x ∈ rest, x.getId ≠ c.getId) →
      ∃ i s2 tf2, s.switch (s.processes.length + 1) ns tf =
        SwitchOutcome.ret (some i) s2 tf2 0 := by
  intro s ns tf c rest hps hready hids
  by_cases hr : ∃ p ∈ rest, p.isReady = true
  · obtain ⟨pre, p, post, heq, hpre, hp⟩ := exists_first_ready rest hr
    have hdec : rest ++ [{ c with trap_frame := tf, state := ns }] =
        pre ++ p :: (post ++ [{ c with trap_frame := tf, state := ns }]) := by
      rw [heq]; simp
    have hlen : rest.length = pre.length + post.length + 1 := by
      rw [heq]; simp only [List.length_append, List.length_cons]; omega
    have hfuel : pre.length < s.processes.length + 1 := by
      rw [hps]; simp only [List.length_cons]; omega
    have hw : wfiCount c.getId pre = 0 :=
      wfiCount_eq_zero c.getId pre
        (fun x hx => hids x (by rw [heq]; exact List.mem_append_left _ hx))
    refine ⟨p.getId,
      { processes := { p with state := State.Running } ::
          ((post ++ [{ c with trap_frame := tf, state := ns }]) ++ pre),
        current := some p.getId, last_id := s.last_id },
      p.trap_frame, ?_⟩
    rw [switch_ready_spec (s.processes.length + 1) s ns tf c p rest pre
      (post ++ [{ c with trap_frame := tf, state := ns }]) hps hdec hpre hp hfuel, hw]
  · have hns : ns = State.Ready := by
      rcases hready with hready | hready
      · exact absurd hready hr
      · exact hready
    have hpre : ∀ x ∈ rest, x.isReady = false := by
      intro x hx
      cases hxr : x.isReady
      · rfl
      · exact absurd ⟨x, hx, hxr⟩ hr
    have hout : ({ c with trap_frame := tf, state := ns } : Process).isReady = true := by
      simp [Process.isReady, hns]
    have hfuel : rest.length < s.processes.length + 1 := by
      rw [hps]; simp only [List.length_cons]; omega
    have hw : wfiCount c.getId rest = 0 := wfiCount_eq_zero c.getId rest hids
    refine ⟨({ c with trap_frame := tf, state := ns } : Process).getId,
      { processes :=
          { ({ c with trap_frame := tf, state := ns } : Process) with
            state := State.Running } :: ([] ++ rest),
        current := some ({ c with trap_frame := tf, state := ns } : Process).getId,
        last_id := s.last_id },
      ({ c with trap_frame := tf, state := ns } : Process).trap_frame, ?_⟩
    rw [switch_ready_spec (s.processes.length + 1) s ns tf c
      { c with trap_frame := tf, state := ns } rest rest [] hps rfl hpre hout hfuel, hw]

/-- Witness for C2's amended theorem: the demo scheduler with P1 Ready
behind the head returns within the bound with no low-power wait. -/
theorem claim2_witness :
    ∃ i s2 tf2, sDemo2.switch (sDemo2.processes.length + 1) State.Ready bufDemo =
      SwitchOutcome.ret (some i) s2 tf2 0 :=
  claim2_liveness_amended sDemo2 State.Ready bufDemo P0s [P1s]
    (by decide) (Or.inl (by decide)) (by decide)

/-- Claim C3: with no exhaustion, the ids returned by a sequence of `add`
calls from a fresh scheduler are exactly 0, 1, 2, … in call order, each id
being stamped into the added process's snapshot identifier field; and each
single `add` allocates exactly `last_id + 1` (or 0 when `last_id` is unset)
and stamps it into the appended process. -/
theorem claim3_sequential_ids :
    (∀ ps : List Process, ps.length ≤ u64Bound →
      (addAll Scheduler.new ps).1 = (List.range ps.length).map some ∧
      (addAll Scheduler.new ps).2.processes.map Process.getId =
        List.range ps.length)
    ∧ (∀ (s : Scheduler) (p : Process) (i : Nat) (s2 : Scheduler),
        s.add p = (some i, s2) →
        i = (match s.last_id with | none => 0 | some k => k + 1) ∧
        s2.processes.map Process.getId =
          s.processes.map Process.getId ++ [i]) := by
  constructor
  · intro ps hlen
    match ps with
    | [] => exact ⟨rfl, rfl⟩
    | p :: rest =>
      have hadd : Scheduler.new.add p =
          (some 0,
           { processes := [{ p with trap_frame := { p.trap_frame with tpidr := 0 } }],
             current := some 0, last_id := some 0 }) := rfl
      have hbound : 0 + rest.length < u64Bound := by
        simp only [List.length_cons] at hlen; omega
      obtain ⟨h1, h2⟩ :=
        addAll_ids_from rest (Scheduler.new.add p).2 0 (by rw [hadd]) hbound
      have hadd1 : (Scheduler.new.add p).1 = some 0 := by rw [hadd]
      have hadd2 : (Scheduler.new.add p).2.processes.map Process.getId = [0] := rfl
      constructor
      · show (Scheduler.new.add p).1 :: (addAll (Scheduler.new.add p).2 rest).1 = _
        rw [h1, hadd1, List.length_cons, range_map_some]
      · show (addAll (Scheduler.new.add p).2 rest).2.processes.map Process.getId = _
        rw [h2, hadd2, List.length_cons, range_id_eq]
        rfl
  · intro s p i s2 h
    rcases add_inv s p (some i) s2 h with ⟨hbad, _⟩ | ⟨i0, hi0, hival, rfl⟩
    · exact Option.noConfusion hbad
    · injection hi0 with hi0
      subst hi0
      refine ⟨hival, ?_⟩
      simp [Process.getId]

/-- Witness for C3: two `add` calls from a fresh scheduler return ids 0, 1
and stamp them into the stored snapshots. -/
theorem claim3_witness :
    (addAll Scheduler.new [P0demo, P1demo]).1 =
      (List.range ([P0demo, P1demo] : List Process).length).map some ∧
    (addAll Scheduler.new [P0demo, P1demo]).2.processes.map Process.getId =
      List.range ([P0demo, P1demo] : List Process).length :=
  claim3_sequential_ids.1 [P0demo, P1demo] (by decide)

/-- Claim C4: every returning `switch` call preserves the number of
processes in the ready set, whatever the target state, buffer and number of
scan iterations. -/
theorem claim4_length_invariant :
    ∀ (s : Scheduler) (fuel : Nat) (ns : State) (tf : TrapFrame)
      (r : Option Nat) (s2 : Scheduler) (tf2 : TrapFrame) (w : Nat),
      s.switch fuel ns tf = SwitchOutcome.ret r s2 tf2 w →
      s2.processes.length = s.processes.length := by
  intro s fuel ns tf r s2 tf2 w h
  rcases switch_ret_inv s fuel ns tf r s2 tf2 w h with
    ⟨_, _, rfl, _, _⟩ | ⟨c, rest, i, q, hps, _, hscan, rfl⟩
  · rfl
  · have hlen := scan_found_length fuel c.getId _ 0 q i tf2 w hscan
    show q.length = s.processes.length
    rw [hlen, hps]
    simp

/-- Witness for C4: the demo `switch(Running, bufDemo)` call keeps the
ready-set length at 2. -/
theorem claim4_witness : sC6after.processes.length = sDemo2.processes.length :=
  claim4_length_invariant sDemo2 5 State.Running bufDemo (some 1) sC6after
    tfP1s 0 (by decide)

/-- Claim C5: the snapshot a `switch` call writes into the outgoing head's
container (the caller's buffer `tf1`) is exactly the snapshot copied back
out when a later `switch` next selects that process — hypotheses pin down
"that same process" (the buffer carries the head's id, and no other process
shares it) and "no write in between" (the process was not immediately
re-selected and then overwritten by the second call's own step 2). -/
theorem claim5_snapshot_roundtrip :
    ∀ (fuel1 fuel2 : Nat) (s : Scheduler) (ns1 ns2 : State)
      (tf1 tf2 : TrapFrame) (c : Process) (rest : List Process)
      (i1 i2 : Nat) (s1 s2 : Scheduler) (tfo1 tfo2 : TrapFrame) (w1 w2 : Nat),
      s.processes = c :: rest →
      (∀ x ∈ rest, x.getId ≠ c.getId) →
      tf1.tpidr = c.getId →
      s.switch fuel1 ns1 tf1 = SwitchOutcome.ret (some i1) s1 tfo1 w1 →
      i1 ≠ c.getId →
      tf2.tpidr ≠ c.getId →
      s1.switch fuel2 ns2 tf2 = SwitchOutcome.ret (some i2) s2 tfo2 w2 →
      i2 = c.getId →
      tfo2 = tf1 := by
  intro fuel1 fuel2 s ns1 ns2 tf1 tf2 c rest i1 i2 s1 s2 tfo1 tfo2 w1 w2
    hps hids htp1 h1 hi1 htp2 h2 hi2
  rcases switch_ret_inv s fuel1 ns1 tf1 (some i1) s1 tfo1 w1 h1 with
    ⟨_, hbad, _, _, _⟩ | ⟨c1, rest1, i1v, q1, hps1, hr1, hscan1, hs1⟩
  · exact Option.noConfusion hbad
  rw [hps] at hps1
  injection hps1 with hc1 hrest1
  subst hc1
  subst hrest1
  injection hr1 with hr1
  subst hr1
  obtain ⟨p1, t1, hp1mem, hp1r, hp1id, hp1tf, hq1, ht1⟩ :=
    scan_found_sel fuel1 c.getId _ 0 q1 i1 tfo1 w1 hscan1
  subst hs1
  rcases switch_ret_inv _ fuel2 ns2 tf2 (some i2) s2 tfo2 w2 h2 with
    ⟨hemp, _, _, _, _⟩ | ⟨c2, rest2, i2v, q2, hps2, hr2, hscan2, hs2⟩
  · rw [show ({ processes := q1, current := some i1, last_id := s.last_id } :
        Scheduler).processes = q1 from rfl, hq1] at hemp
    exact List.noConfusion hemp
  rw [show ({ processes := q1, current := some i1, last_id := s.last_id } :
      Scheduler).processes = q1 from rfl, hq1] at hps2
  injection hps2 with hc2 hrest2
  subst hc2
  subst hrest2
  injection hr2 with hr2
  subst hr2
  obtain ⟨p2, t2, hp2mem, hp2r, hp2id, hp2tf, hq2, ht2⟩ :=
    scan_found_sel fuel2 ({ p1 with state := State.Running } : Process).getId _ 0
      q2 i2 tfo2 w2 hscan2
  rcases List.mem_append.mp hp2mem with hmem | hmem
  · rcases List.mem_append.mp (ht1 p2 hmem) with hmr | hmo
    · exact absurd (hi2 ▸ hp2id.symm) (hids p2 hmr)
    · have hp2 : p2 = { c with trap_frame := tf1, state := ns1 } := by
        simpa using hmo
      rw [hp2tf, hp2]
  · have hp2 : p2 = { ({ p1 with state := State.Running } : Process) with
        trap_frame := tf2, state := ns2 } := by
      simpa using hmem
    have : p2.getId = tf2.tpidr := by rw [hp2]; rfl
    rw [← hp2id, hi2] at this
    exact absurd this.symm htp2

/-- Witness for C5: the concrete two-call run — the first `switch` stores
`bufDemo` into P0, the second selects P0 and copies `bufDemo` back out. -/
theorem claim5_witness : tfOfOutcome (s1C5.switch 3 State.Ready tf2C5) = bufDemo :=
  claim5_snapshot_roundtrip 3 3 sDemo2 State.Ready State.Ready bufDemo tf2C5
    P0s [P1s] 1 0 s1C5 s2C5 tfP1s (tfOfOutcome (s1C5.switch 3 State.Ready tf2C5))
    0 0 (by decide) (by decide) (by decide) (by decide) (by decide) (by decide)
    (by decide) (by decide)

/-- Claim C6 counterexample: from a state reached by two `add` calls on
Ready processes, a single `switch(Running, bufDemo)` call returns and
leaves TWO processes marked Running in the ready set. -/
theorem claim6_counterexample :
    sC6.switch 5 State.Running bufDemo =
      SwitchOutcome.ret (some 1) sC6after tfP1s 0 ∧
    runningCount sC6after.processes = 2 := by
  decide

/-- Claim C6, amended: at most one process is Running at every observation
point between calls, provided no call injects Running from outside — added
processes are not Running and `switch` is never passed `Running` as the
outgoing state. -/
theorem claim6_at_most_one_running :
    ∀ s : Scheduler, ReachableNR s → runningCount s.processes ≤ 1 := by
  intro s h
  have ht := reachNR_tail s h
  match hps : s.processes with
  | [] => simp [runningCount]
  | c :: t =>
    have htz : t.countP (fun p => decide (p.state = State.Running)) = 0 := by
      rw [List.countP_eq_zero]
      intro a ha
      simp only [decide_eq_true_eq]
      exact ht a (by rw [hps]; exact ha)
    rw [runningCount, List.countP_cons, htz]
    split <;> omega

/-- Witness for C6's amended theorem: the single-Ready-process state reached
by one restricted `add` has at most one Running process. -/
theorem claim6_witness : runningCount sC2.processes ≤ 1 :=
  claim6_at_most_one_running sC2
    (ReachableNR.addStep Scheduler.new PAdemo (some 0) sC2 ReachableNR.init
      (by decide) rfl)

/-- Claim C7: a returning `switch` yields no id exactly when the ready set
was empty at the call, in which case it fails immediately with no mutation;
and once the set is non-empty, neither `switch` nor `add` can empty it, and
`switch` always returns some id. -/
theorem claim7_empty_iff_none :
    (∀ (s : Scheduler) (fuel : Nat) (ns : State) (tf : TrapFrame)
       (r : Option Nat) (s2 : Scheduler) (tf2 : TrapFrame) (w : Nat),
       s.switch fuel ns tf = SwitchOutcome.ret r s2 tf2 w →
       ((r = none ↔ s.processes = []) ∧
        (s.processes = [] → s2 = s ∧ tf2 = tf ∧ w = 0)))
    ∧ (∀ (s : Scheduler) (fuel : Nat) (ns : State) (tf : TrapFrame)
         (r : Option Nat) (s2 : Scheduler) (tf2 : TrapFrame) (w : Nat),
         s.processes ≠ [] →
         s.switch fuel ns tf = SwitchOutcome.ret r s2 tf2 w →
         (∃ i, r = some i) ∧ s2.processes ≠ [])
    ∧ (∀ (s : Scheduler) (p : Process) (r : Option Nat) (s2 : Scheduler),
         s.add p = (r, s2) → s.processes ≠ [] → s2.processes ≠ []) := by
  refine ⟨?_, ?_, ?_⟩
  · intro s fuel ns tf r s2 tf2 w h
    rcases switch_ret_inv s fuel ns tf r s2 tf2 w h with
      ⟨he, hr, hs2, htf, hw⟩ | ⟨c, rest, i, q, hps, hr, hscan, hs2⟩
    · exact ⟨⟨fun _ => he, fun _ => hr⟩, fun _ => ⟨hs2, htf, hw⟩⟩
    · constructor
      · constructor
        · intro hn
          rw [hr] at hn
          exact Option.noConfusion hn
        · intro he
          rw [hps] at he
          exact List.noConfusion he
      · intro he
        rw [hps] at he
        exact List.noConfusion he
  · intro s fuel ns tf r s2 tf2 w hne h
    rcases switch_ret_inv s fuel ns tf r s2 tf2 w h with
      ⟨he, _, _, _, _⟩ | ⟨c, rest, i, q, hps, hr, hscan, hs2⟩
    · exact absurd he hne
    · refine ⟨⟨i, hr⟩, ?_⟩
      subst hs2
      show q ≠ []
      obtain ⟨p1, t1, _, _, _, _, hq, _⟩ :=
        scan_found_sel fuel c.getId _ 0 q i tf2 w hscan
      rw [hq]
      exact List.cons_ne_nil _ _
  · intro s p r s2 h hne
    rcases add_inv s p r s2 h with ⟨_, rfl⟩ | ⟨i, _, _, rfl⟩
    · exact hne
    · show s.processes ++ _ ≠ []
      simp

/-- Witness for C7: `switch` on the empty fresh scheduler returns no id and
mutates nothing. -/
theorem claim7_witness :
    ((none : Option Nat) = none ↔ Scheduler.new.processes = []) ∧
    (Scheduler.new.processes = [] →
      Scheduler.new = Scheduler.new ∧ bufDemo = bufDemo ∧ (0 : Nat) = 0) :=
  claim7_empty_iff_none.1 Scheduler.new 3 State.Ready bufDemo none
    Scheduler.new bufDemo 0 (by decide)

/-- Claim C8: when the next id would overflow the `u64` range, `add`
returns no id and leaves the whole scheduler state — ready set, `current`
and `last_id` — unchanged; the counter does not wrap. -/
theorem claim8_overflow_no_mutation :
    ∀ (s : Scheduler) (p : Process) (k : Nat),
      s.last_id = some k → u64Bound ≤ k + 1 →
      s.add p = (none, s) := by
  intro s p k hk hge
  simp only [Scheduler.add, hk, checkedAdd1, if_neg (by omega : ¬ k + 1 < u64Bound)]

/-- Witness for C8: `add` at `last_id = 2^64 - 1` fails without mutating. -/
theorem claim8_witness : sBig.add P0demo = (none, sBig) :=
  claim8_overflow_no_mutation sBig P0demo (u64Bound - 1) rfl
    (by norm_num [u64Bound])

/-- Claim C9: in every reachable state in which `current` is set, it names
the id of a process present in the ready set — `add` establishes it for the
first process, `switch` re-establishes it for the process re-inserted at
the head. -/
theorem claim9_current_in_ready_set :
    ∀ s : Scheduler, Reachable s → ∀ i : Nat, s.current = some i →
      ∃ p ∈ s.processes, p.getId = i := by
  intro s h
  induction h with
  | init => intro i hi; exact Option.noConfusion hi
  | addStep s p r s2 hs hadd ih =>
    intro i hi
    rcases add_inv s p r s2 hadd with ⟨_, rfl⟩ | ⟨i0, _, _, rfl⟩
    · exact ih i hi
    · rcases hc : s.current with _ | c0
      · have hi2 : some i0 = some i := by
          have := hi
          simp only [hc] at this
          exact this
        injection hi2 with hi2
        refine ⟨{ p with trap_frame := { p.trap_frame with tpidr := i0 } },
          by simp, ?_⟩
        show i0 = i
        exact hi2
      · have hi2 : some c0 = some i := by
          have := hi
          simp only [hc] at this
          exact this
        injection hi2 with hi2
        obtain ⟨p0, hp0, hid0⟩ := ih i (by rw [hc, hi2])
        exact ⟨p0, by simp [List.mem_append]; exact Or.inl hp0, hid0⟩
  | switchStep s fuel ns tf r s2 tf2 w hs hsw ih =>
    intro i hi
    rcases switch_ret_inv s fuel ns tf r s2 tf2 w hsw with
      ⟨_, _, rfl, _, _⟩ | ⟨c, rest, iv, q, hps, hr, hscan, rfl⟩
    · exact ih i hi
    · have hi2 : some iv = some i := hi
      injection hi2 with hi2
      subst hi2
      obtain ⟨p1, t1, _, _, hid, _, hq, _⟩ :=
        scan_found_sel fuel c.getId _ 0 q iv tf2 w hscan
      refine ⟨{ p1 with state := State.Running }, ?_, ?_⟩
      · show _ ∈ q
        rw [hq]
        exact List.mem_cons_self _ _
      · show p1.trap_frame.tpidr = iv
        exact hid.symm

/-- Witness for C9: after the first `add`, `current = 0` names the stamped
process sitting in the ready set. -/
theorem claim9_witness : ∃ p ∈ sDemo1.processes, p.getId = 0 :=
  claim9_current_in_ready_set sDemo1
    (Reachable.addStep Scheduler.new P0demo (some 0) sDemo1 Reachable.init rfl)
    0 rfl

/-- Claim C10: a successful `add` only stamps the allocated id into the
added process's snapshot identifier field — its state, stack and every
other snapshot field are exactly as supplied — and every process already in
the ready set is left in place unchanged. -/
theorem claim10_add_frame :
    ∀ (s : Scheduler) (p : Process) (i : Nat) (s2 : Scheduler),
      s.add p = (some i, s2) →
      ∃ q : Process, s2.processes = s.processes ++ [q] ∧
        q.trap_frame.tpidr = i ∧ q.state = p.state ∧ q.stack = p.stack ∧
        q.trap_frame.elr = p.trap_frame.elr ∧
        q.trap_frame.sp = p.trap_frame.sp ∧
        q.trap_frame.spsr = p.trap_frame.spsr ∧
        q.trap_frame.regs = p.trap_frame.regs := by
  intro s p i s2 h
  rcases add_inv s p (some i) s2 h with ⟨hbad, _⟩ | ⟨i0, hi0, _, rfl⟩
  · exact Option.noConfusion hbad
  · injection hi0 with hi0
    subst hi0
    exact ⟨_, rfl, rfl, rfl, rfl, rfl, rfl, rfl, rfl⟩

/-- Witness for C10: the first demo `add` only changes the snapshot's
identifier field of P0 and appends it. -/
theorem claim10_witness :
    ∃ q : Process, sDemo1.processes = Scheduler.new.processes ++ [q] ∧
      q.trap_frame.tpidr = 0 ∧ q.state = P0demo.state ∧ q.stack = P0demo.stack ∧
      q.trap_frame.elr = P0demo.trap_frame.elr ∧
      q.trap_frame.sp = P0demo.trap_frame.sp ∧
      q.trap_frame.spsr = P0demo.trap_frame.spsr ∧
      q.trap_frame.regs = P0demo.trap_frame.regs :=
  claim10_add_frame Scheduler.new P0demo 0 sDemo1 rfl

end KernelSched
